import Mathlib

/-!
Verification of the `steps.py` client for the 10000 steps website: a shallow
embedding of its pure computations (URL and query-string construction, the
walk-history summarizer, and the leaderboard aggregation of the `leaders`
subcommand) together with theorems about them.

Python dictionaries are modelled as association lists in iteration
(insertion) order; string-keyed lookup takes the first matching key.
Python's stable `list.sort` is modelled by a stable insertion sort.
-/

/-- Stable insertion: place `x` before the first element `y` with
`le x y = true`.  Models where Python's stable sort puts an element that
occurred earlier in the original list. -/
def insertStable (le : α → α → Bool) (x : α) : List α → List α
  | [] => [x]
  | y :: ys => if le x y then x :: y :: ys else y :: insertStable le x ys

/-- Stable insertion sort, modelling Python's stable `list.sort` /
`sorted` with the boolean comparison `le`. -/
def insSort (le : α → α → Bool) : List α → List α
  | [] => []
  | x :: xs => insertStable le x (insSort le xs)

/-- Lexicographic comparison of character lists by code point: Python's
`<=` on strings (identical to byte order on the ASCII data involved). -/
def lexLe : List Char → List Char → Bool
  | [], _ => true
  | _ :: _, [] => false
  | a :: as, b :: bs =>
      if a.toNat < b.toNat then true
      else if a.toNat = b.toNat then lexLe as bs
      else false

/-- Python's `<=` on strings. -/
def strLe (a b : String) : Bool := lexLe a.data b.data

/-- `'?' in path` of Python: the path contains a question-mark character. -/
def hasQueryMark (s : String) : Bool := s.data.contains '?'

/-- `API.base_url` from `steps.py`. -/
def base_url : String := "https://www.members.10000stepsuk.com"

/-- `API._url` from `steps.py`: append the cache-busting
`ajax.timestamp=<epoch-ms>` parameter (with `?` or `&` depending on whether
the path already has a query string), then prepend the base URL.  The
timestamp is an input here since the embedding is pure. -/
def url (path : String) (timestampMs : Nat) : String :=
  let delim := if hasQueryMark path then "&" else "?"
  let path := path ++ delim ++ "ajax.timestamp=" ++ toString timestampMs
  base_url ++ path

/-- Path requested by `API.get_activity_list`. -/
def get_activity_list_path : String := "/users/getActivityList"

/-- Path requested by `API.get_walk_history`. -/
def get_walk_history_path (date : Option String) : String :=
  let path := "/users/logWalkHistory"
  match date with
  | none => path
  | some d => if d.isEmpty then path else path ++ "?reloadDate=" ++ d

/-- Path requested by `API.get_leaderboard`: `?recalc` when requested, and
`dateCheck=<date>` joined with `?` or `&` depending on whether the path
already holds a query string.  Python's `if date_check:` treats both `None`
and the empty string as absent. -/
def get_leaderboard_path (recalc : Bool) (date_check : Option String) : String :=
  let path := "/users/leaderboards"
  let path := if recalc then path ++ "?recalc" else path
  match date_check with
  | none => path
  | some d =>
      if d.isEmpty then path
      else
        let delim := if hasQueryMark path then "&" else "?"
        path ++ delim ++ "dateCheck=" ++ d

/-- The JSON `data` object returned by `/users/getActivityList`: an
`else_used` dictionary whose keys are the activity names (values opaque). -/
structure ActivityData (V : Type) where
  else_used : List (String × V)

/-- `[a for a in data['else_used'].keys()]` in the `activities` subcommand:
the key list of `else_used`, in the dictionary's iteration order. -/
def activityKeys {V : Type} (d : ActivityData V) : List String :=
  d.else_used.map Prod.fst

/-- The list the `activities` subcommand prints: the keys after the
presentation-layer `activity_list.sort()`. -/
def activitiesOutput {V : Type} (d : ActivityData V) : List String :=
  insSort strLe (activityKeys d)

/-- A log entry under a date of the walk history: `{'id': ..., 'steps': ...}`. -/
structure LogRec where
  id : String
  steps : Int
deriving DecidableEq

/-- The record stored under one date of the walk history; the `logs` key is
optional, and when present maps log ids to log entries. -/
structure DateRec where
  logs : Option (List (String × LogRec))
deriving DecidableEq

/-- The per-date loop body of the `history` subcommand: `steps = 0`, then if
the record has a `logs` key, add the `steps` field of every log entry. -/
def dateTotal (rec : DateRec) : Int :=
  match rec.logs with
  | none => 0
  | some logs => (logs.map (fun l => l.2.steps)).sum

/-- Python dictionary lookup `d[k]` on an association list (first match). -/
def dictGet (k : String) : List (String × α) → Option α
  | [] => none
  | (k2, v) :: rest => if k = k2 then some v else dictGet k rest

/-- The `history` subcommand's summarization: sort the date keys ascending
(`dates.sort()`), then emit `(date, total steps)` per date. -/
def summarizeHistory (data : List (String × DateRec)) : List (String × Int) :=
  let dates := insSort strLe (data.map Prod.fst)
  dates.map (fun d =>
    (d, match dictGet d data with
        | none => 0
        | some rec => dateTotal rec))

/-- A user record of the leaderboard snapshot. -/
structure UserRec where
  first_name : String
  last_name : String
  login : String
deriving DecidableEq

/-- A team record of the leaderboard snapshot. -/
structure TeamRec where
  name : String
deriving DecidableEq

/-- A statistic record of the leaderboard snapshot; `total` is string-typed
in the source data and parsed with `int(...)` by the code. -/
structure StatRec where
  user_id : String
  team_id : String
  total : String
deriving DecidableEq

/-- The leaderboard snapshot: the four dictionaries of the JSON `data`
object used by the `leaders` subcommand, in iteration order. -/
structure Snapshot where
  users : List (String × UserRec)
  teams : List (String × TeamRec)
  statistics : List (String × StatRec)
  indexUsersByTeam : List (String × List String)
deriving DecidableEq

/-- The exceptions the `leaders` aggregation can raise: a `KeyError` when a
statistic's `team_id` is missing from the team-total accumulator (the
spec's `ReferenceError`), or a `ValueError` from `int(...)` on a
non-numeric total. -/
inductive AggError where
  | referenceError (team_id : String)
  | valueError (total : String)
deriving DecidableEq

/-- Strip leading and trailing whitespace, as Python's `int(str)` does. -/
def trimWs (cs : List Char) : List Char :=
  ((cs.dropWhile Char.isWhitespace).reverse.dropWhile Char.isWhitespace).reverse

/-- Value of a nonempty all-digit character list, else `none`. -/
def digitsVal (cs : List Char) : Option Nat :=
  if cs.isEmpty then none
  else if cs.all Char.isDigit then
    some (cs.foldl (fun a c => a * 10 + (c.toNat - 48)) 0)
  else none

/-- Python's `int(s)` on a string: optional surrounding whitespace, optional
sign, one or more digits; otherwise a `ValueError` (`none`). -/
def pyInt (s : String) : Option Int :=
  match trimWs s.data with
  | '+' :: rest => (digitsVal rest).map Int.ofNat
  | '-' :: rest => (digitsVal rest).map (fun n => -(n : Int))
  | cs => (digitsVal cs).map Int.ofNat

/-- `for team_id in data['indexUsersByTeam']: team_totals[team_id] = 0` —
the team-total accumulator seeded with 0 for every team id, in order. -/
def initTeamTotals (idx : List (String × List String)) : List (String × Int) :=
  idx.map (fun p => (p.1, 0))

/-- `team_totals[tid] += v`: add `v` to the value stored at the first
occurrence of `tid`, or `none` (a `KeyError`) when `tid` is absent. -/
def updateTeam (tts : List (String × Int)) (tid : String) (v : Int) :
    Option (List (String × Int)) :=
  match tts with
  | [] => none
  | (k, t) :: rest =>
      if k = tid then some ((k, t + v) :: rest)
      else (updateTeam rest tid v).map (fun r => (k, t) :: r)

/-- The fill loop of `leaders`: for each statistic record, append
`(user_id, int(total))` to the ranking and add `int(total)` to its team's
accumulator; the first failure aborts the aggregation. -/
def fillRankings : List StatRec → List (String × Int) →
    Except AggError (List (String × Int) × List (String × Int))
  | [], tts => .ok ([], tts)
  | stat :: rest, tts =>
      match pyInt stat.total with
      | none => .error (.valueError stat.total)
      | some v =>
          match updateTeam tts stat.team_id v with
          | none => .error (.referenceError stat.team_id)
          | some tts2 =>
              (fillRankings rest tts2).map (fun p => ((stat.user_id, v) :: p.1, p.2))

/-- `xs.sort(key=..., reverse=True)`: stable sort, descending in the key. -/
def sortDescBy (key : α → Int) : List α → List α :=
  insSort (fun a b => decide (key b ≤ key a))

/-- The rank-assignment loop: `rank = n`, emit `(id, total, rank)` and
increment the rank for each entry in sorted order. -/
def rankifyFrom (n : Nat) : List (String × Int) → List (String × Int × Nat)
  | [] => []
  | p :: rest => (p.1, p.2, n) :: rankifyFrom (n + 1) rest

/-- Forget the rank of a ranked entry. -/
def dropRank (e : String × Int × Nat) : String × Int := (e.1, e.2.1)

/-- Sum of the totals of unranked entries. -/
def sumTotals (l : List (String × Int)) : Int := (l.map Prod.snd).sum

/-- Sum of the totals of ranked entries. -/
def sumRankedTotals (l : List (String × Int × Nat)) : Int :=
  (l.map (fun e => e.2.1)).sum

/-- The whole `leaders` aggregation: seed the team accumulator from
`indexUsersByTeam`, fill both rankings from `statistics`, sort each
descending by total (stably), and assign ranks from 1. -/
def leadersAgg (s : Snapshot) :
    Except AggError (List (String × Int × Nat) × List (String × Int × Nat)) :=
  match fillRankings (s.statistics.map Prod.snd) (initTeamTotals s.indexUsersByTeam) with
  | .error e => .error e
  | .ok (ranking, tts) =>
      .ok (rankifyFrom 1 (sortDescBy (fun p => p.2) ranking),
           rankifyFrom 1 (sortDescBy (fun p => p.2) tts))

/-- Inserting with `insertStable` is a permutation of consing. -/
theorem insertStable_perm (le : α → α → Bool) (x : α) (l : List α) :
    List.Perm (insertStable le x l) (x :: l) := by
  induction l with
  | nil => exact List.Perm.refl _
  | cons y ys ih =>
      cases hxy : le x y with
      | true => simp [insertStable, hxy]
      | false =>
          simp only [insertStable, hxy, Bool.false_eq_true, if_false]
          exact (ih.cons y).trans (List.Perm.swap x y ys)

/-- `insSort` permutes its input. -/
theorem insSort_perm (le : α → α → Bool) (l : List α) :
    List.Perm (insSort le l) l := by
  induction l with
  | nil => exact List.Perm.refl _
  | cons x xs ih => exact (insertStable_perm le x (insSort le xs)).trans (ih.cons x)

/-- Inserting into a `le`-sorted list keeps it sorted, for a total and
transitive boolean comparison. -/
theorem insertStable_pairwise (le : α → α → Bool)
    (htrans : ∀ a b c, le a b = true → le b c = true → le a c = true)
    (htot : ∀ a b, le a b = true ∨ le b a = true)
    (x : α) (l : List α) (h : l.Pairwise (fun a b => le a b = true)) :
    (insertStable le x l).Pairwise (fun a b => le a b = true) := by
  induction l with
  | nil => simp [insertStable]
  | cons y ys ih =>
      rcases List.pairwise_cons.1 h with ⟨hy, hys⟩
      cases hxy : le x y with
      | true =>
          simp only [insertStable, hxy, if_true]
          refine List.pairwise_cons.2 ⟨?_, h⟩
          intro z hz
          rcases List.mem_cons.1 hz with rfl | hz
          · exact hxy
          · exact htrans x y z hxy (hy z hz)
      | false =>
          simp only [insertStable, hxy, Bool.false_eq_true, if_false]
          refine List.pairwise_cons.2 ⟨?_, ih hys⟩
          intro z hz
          have hz2 := (insertStable_perm le x ys).mem_iff.1 hz
          rcases List.mem_cons.1 hz2 with rfl | hz2
          · rcases htot y z with hyz | hzy
            · exact hyz
            · rw [hzy] at hxy; cases hxy
          · exact hy z hz2

/-- `insSort` sorts, for a total and transitive boolean comparison. -/
theorem insSort_pairwise (le : α → α → Bool)
    (htrans : ∀ a b c, le a b = true → le b c = true → le a c = true)
    (htot : ∀ a b, le a b = true ∨ le b a = true) (l : List α) :
    (insSort le l).Pairwise (fun a b => le a b = true) := by
  induction l with
  | nil => simp [insSort]
  | cons x xs ih => exact insertStable_pairwise le htrans htot x _ ih

/-- Stability of insertion, positive case: an element that `le`-precedes
every element satisfying `p` is inserted before all of them. -/
theorem insertStable_filter_pos (le : α → α → Bool) (p : α → Bool) (x : α)
    (l : List α) (hx : p x = true) (hp : ∀ y, p y = true → le x y = true) :
    (insertStable le x l).filter p = x :: l.filter p := by
  induction l with
  | nil => simp [insertStable, hx]
  | cons y ys ih =>
      cases hxy : le x y with
      | true => simp [insertStable, hxy, hx]
      | false =>
          have hpy : p y = false := by
            cases hyp : p y
            · rfl
            · rw [hp y hyp] at hxy; cases hxy
          simp [insertStable, hxy, hpy, List.filter_cons, ih]

/-- Stability of insertion, negative case: inserting an element filtered
out by `p` does not change the `p`-filtered list. -/
theorem insertStable_filter_neg (le : α → α → Bool) (p : α → Bool) (x : α)
    (l : List α) (hx : p x = false) :
    (insertStable le x l).filter p = l.filter p := by
  induction l with
  | nil => simp [insertStable, hx]
  | cons y ys ih =>
      cases hxy : le x y with
      | true => simp [insertStable, hxy, hx]
      | false => simp [insertStable, hxy, List.filter_cons, ih]

/-- Stability of the sort: when all elements selected by `p` compare `le`
with each other in both directions, sorting does not change the
`p`-filtered sublist — equal elements keep their original relative order. -/
theorem insSort_filter (le : α → α → Bool) (p : α → Bool)
    (hp : ∀ a b, p a = true → p b = true → le a b = true) (l : List α) :
    (insSort le l).filter p = l.filter p := by
  induction l with
  | nil => rfl
  | cons x xs ih =>
      cases hx : p x with
      | true =>
          rw [insSort, insertStable_filter_pos le p x _ hx (fun y hy => hp x y hx hy), ih,
            List.filter_cons, hx]
          simp
      | false =>
          rw [insSort, insertStable_filter_neg le p x _ hx, ih, List.filter_cons, hx]
          simp

/-- `lexLe` is total. -/
theorem lexLe_total : ∀ a b : List Char, lexLe a b = true ∨ lexLe b a = true
  | [], _ => Or.inl rfl
  | _ :: _, [] => Or.inr rfl
  | a :: as, b :: bs => by
      rcases Nat.lt_trichotomy a.toNat b.toNat with h | h | h
      · left; simp [lexLe, h]
      · rcases lexLe_total as bs with ih | ih
        · left; simp [lexLe, h, ih]
        · right; simp [lexLe, h.symm, ih]
      · right; simp [lexLe, h]

/-- Unfolding characterization of `lexLe` on two nonempty lists. -/
theorem lexLe_cons_iff (a b : Char) (as bs : List Char) :
    lexLe (a :: as) (b :: bs) = true ↔
      a.toNat < b.toNat ∨ (a.toNat = b.toNat ∧ lexLe as bs = true) := by
  simp only [lexLe]
  by_cases h1 : a.toNat < b.toNat
  · simp [h1]
  · by_cases h2 : a.toNat = b.toNat
    · simp [h1, h2]
    · simp [h1, h2]

/-- `lexLe` is transitive. -/
theorem lexLe_trans : ∀ a b c : List Char,
    lexLe a b = true → lexLe b c = true → lexLe a c = true
  | [], _, _, _, _ => rfl
  | _ :: _, [], _, hab, _ => by simp [lexLe] at hab
  | _ :: _, _ :: _, [], _, hbc => by simp [lexLe] at hbc
  | a :: as, b :: bs, c :: cs, hab, hbc => by
      rcases (lexLe_cons_iff a b as bs).1 hab with h1 | ⟨h1, h1r⟩ <;>
        rcases (lexLe_cons_iff b c bs cs).1 hbc with h2 | ⟨h2, h2r⟩
      · exact (lexLe_cons_iff a c as cs).2 (Or.inl (by omega))
      · exact (lexLe_cons_iff a c as cs).2 (Or.inl (by omega))
      · exact (lexLe_cons_iff a c as cs).2 (Or.inl (by omega))
      · exact (lexLe_cons_iff a c as cs).2
          (Or.inr ⟨by omega, lexLe_trans as bs cs h1r h2r⟩)

/-- `strLe` is total. -/
theorem strLe_total (a b : String) : strLe a b = true ∨ strLe b a = true :=
  lexLe_total a.data b.data

/-- `strLe` is transitive. -/
theorem strLe_trans (a b c : String) :
    strLe a b = true → strLe b c = true → strLe a c = true :=
  lexLe_trans a.data b.data c.data

/-- Dropping the ranks added by `rankifyFrom` recovers the sorted list. -/
theorem rankifyFrom_map_dropRank (n : Nat) (l : List (String × Int)) :
    (rankifyFrom n l).map dropRank = l := by
  induction l generalizing n with
  | nil => rfl
  | cons p rest ih => simp [rankifyFrom, dropRank, ih]

/-- `rankifyFrom` preserves length. -/
theorem rankifyFrom_length (n : Nat) (l : List (String × Int)) :
    (rankifyFrom n l).length = l.length := by
  induction l generalizing n with
  | nil => rfl
  | cons p rest ih => simp [rankifyFrom, ih]

/-- The ranks assigned by `rankifyFrom n` are `n, n+1, …` in order. -/
theorem rankifyFrom_ranks (n : Nat) (l : List (String × Int)) :
    (rankifyFrom n l).map (fun e => e.2.2) = List.range' n l.length := by
  induction l generalizing n with
  | nil => rfl
  | cons p rest ih => simp [rankifyFrom, List.range', ih]

/-- `rankifyFrom` preserves the total of each entry, so it maps a list
non-increasing in totals to a list non-increasing in totals. -/
theorem rankifyFrom_pairwise (n : Nat) (l : List (String × Int))
    (h : l.Pairwise (fun a b => b.2 ≤ a.2)) :
    (rankifyFrom n l).Pairwise (fun a b => b.2.1 ≤ a.2.1) := by
  induction l generalizing n with
  | nil => exact List.Pairwise.nil
  | cons p rest ih =>
      rcases List.pairwise_cons.1 h with ⟨hp, hrest⟩
      refine List.pairwise_cons.2 ⟨?_, ih (n + 1) hrest⟩
      intro e he
      have hmem : dropRank e ∈ rest := by
        have h2 := List.mem_map_of_mem dropRank he
        rwa [rankifyFrom_map_dropRank] at h2
      exact hp _ hmem

/-- The sum of the totals of ranked entries is the sum before ranking. -/
theorem sumRankedTotals_rankifyFrom (n : Nat) (l : List (String × Int)) :
    sumRankedTotals (rankifyFrom n l) = sumTotals l := by
  unfold sumRankedTotals sumTotals
  rw [show (fun e : String × Int × Nat => e.2.1) = Prod.snd ∘ dropRank from rfl,
    ← List.map_map, rankifyFrom_map_dropRank]

/-- Permuting a list of entries keeps the sum of its totals. -/
theorem sumTotals_perm {l1 l2 : List (String × Int)} (h : List.Perm l1 l2) :
    sumTotals l1 = sumTotals l2 :=
  (h.map Prod.snd).sum_eq

/-- A successful `team_totals[tid] += v` adds `v` to the accumulator sum. -/
theorem updateTeam_sum (tts : List (String × Int)) (tid : String) (v : Int) :
    ∀ tts2, updateTeam tts tid v = some tts2 → sumTotals tts2 = sumTotals tts + v := by
  induction tts with
  | nil => intro tts2 h; simp [updateTeam] at h
  | cons p rest ih =>
      intro tts2 h
      obtain ⟨k, t⟩ := p
      by_cases hk : k = tid
      · simp only [updateTeam, hk, if_true] at h
        cases h
        simp [sumTotals]
        ring
      · simp only [updateTeam, hk, if_false] at h
        cases hu : updateTeam rest tid v with
        | none => rw [hu] at h; cases h
        | some r =>
            rw [hu] at h
            cases h
            simp [sumTotals] at ih ⊢
            rw [ih r hu]
            ring

/-- A successful `team_totals[tid] += v` keeps the key list unchanged. -/
theorem updateTeam_keys (tts : List (String × Int)) (tid : String) (v : Int) :
    ∀ tts2, updateTeam tts tid v = some tts2 →
      tts2.map Prod.fst = tts.map Prod.fst := by
  induction tts with
  | nil => intro tts2 h; simp [updateTeam] at h
  | cons p rest ih =>
      intro tts2 h
      obtain ⟨k, t⟩ := p
      by_cases hk : k = tid
      · simp only [updateTeam, hk, if_true] at h
        cases h
        simp [hk]
      · simp only [updateTeam, hk, if_false] at h
        cases hu : updateTeam rest tid v with
        | none => rw [hu] at h; cases h
        | some r =>
            rw [hu] at h
            cases h
            simp [ih r hu]

/-- `team_totals[tid] += v` raises a `KeyError` exactly when `tid` is not a
key of the accumulator. -/
theorem updateTeam_none_iff (tts : List (String × Int)) (tid : String) (v : Int) :
    updateTeam tts tid v = none ↔ tid ∉ tts.map Prod.fst := by
  induction tts with
  | nil => simp [updateTeam]
  | cons p rest ih =>
      obtain ⟨k, t⟩ := p
      by_cases hk : k = tid
      · simp [updateTeam, hk]
      · have hne : ¬ tid = k := fun h => hk h.symm
        simp only [updateTeam, hk, if_false]
        rw [Option.map_eq_none']
        simp [hne, ih]

/-- The freshly seeded accumulator has the team ids of `indexUsersByTeam`
as keys. -/
theorem initTeamTotals_keys (idx : List (String × List String)) :
    (initTeamTotals idx).map Prod.fst = idx.map Prod.fst := by
  simp [initTeamTotals]

/-- The freshly seeded accumulator sums to zero. -/
theorem initTeamTotals_sum (idx : List (String × List String)) :
    sumTotals (initTeamTotals idx) = 0 := by
  induction idx with
  | nil => rfl
  | cons p rest ih => simpa [initTeamTotals, sumTotals] using ih

/-- Conservation through the fill loop: on success, the individual totals
plus the initial accumulator sum equal the final accumulator sum. -/
theorem fillRankings_sum (stats : List StatRec) :
    ∀ tts r t, fillRankings stats tts = .ok (r, t) →
      sumTotals r + sumTotals tts = sumTotals t := by
  induction stats with
  | nil =>
      intro tts r t h
      simp only [fillRankings] at h
      cases h
      simp [sumTotals]
  | cons stat rest ih =>
      intro tts r t h
      cases hv : pyInt stat.total with
      | none => simp only [fillRankings, hv] at h; cases h
      | some v =>
          cases hu : updateTeam tts stat.team_id v with
          | none => simp only [fillRankings, hv, hu] at h; cases h
          | some tts2 =>
              cases hf : fillRankings rest tts2 with
              | error e => simp only [fillRankings, hv, hu, hf, Except.map] at h; cases h
              | ok p =>
                  obtain ⟨r2, t2⟩ := p
                  simp only [fillRankings, hv, hu, hf, Except.map, Except.ok.injEq,
                    Prod.mk.injEq] at h
                  obtain ⟨hr, ht⟩ := h
                  subst hr
                  subst ht
                  have h1 := ih tts2 r2 t2 hf
                  have h2 := updateTeam_sum tts stat.team_id v tts2 hu
                  simp only [sumTotals, List.map_cons, List.sum_cons] at h1 h2 ⊢
                  omega

/-- On success the fill loop emits one ranking entry per statistic record. -/
theorem fillRankings_length (stats : List StatRec) :
    ∀ tts r t, fillRankings stats tts = .ok (r, t) → r.length = stats.length := by
  induction stats with
  | nil =>
      intro tts r t h
      simp only [fillRankings] at h
      cases h
      rfl
  | cons stat rest ih =>
      intro tts r t h
      cases hv : pyInt stat.total with
      | none => simp only [fillRankings, hv] at h; cases h
      | some v =>
          cases hu : updateTeam tts stat.team_id v with
          | none => simp only [fillRankings, hv, hu] at h; cases h
          | some tts2 =>
              cases hf : fillRankings rest tts2 with
              | error e => simp only [fillRankings, hv, hu, hf, Except.map] at h; cases h
              | ok p =>
                  obtain ⟨r2, t2⟩ := p
                  simp only [fillRankings, hv, hu, hf, Except.map, Except.ok.injEq,
                    Prod.mk.injEq] at h
                  obtain ⟨hr, ht⟩ := h
                  subst hr
                  subst ht
                  simp [ih tts2 r2 t2 hf]

/-- When every total parses but some statistic names a team id absent from
the accumulator, the fill loop aborts with the `KeyError` of the first such
statistic — it never skips the record. -/
theorem fillRankings_refError (stats : List StatRec) :
    ∀ tts, (∀ st ∈ stats, pyInt st.total ≠ none) →
      (∃ st ∈ stats, st.team_id ∉ tts.map Prod.fst) →
      ∃ tid, tid ∉ tts.map Prod.fst ∧
        fillRankings stats tts = .error (.referenceError tid) := by
  induction stats with
  | nil =>
      intro tts hparse hbad
      obtain ⟨st, hmem, _⟩ := hbad
      cases hmem
  | cons stat rest ih =>
      intro tts hparse hbad
      cases hv : pyInt stat.total with
      | none => exact absurd hv (hparse stat (List.mem_cons_self stat rest))
      | some v =>
          by_cases hk : stat.team_id ∈ tts.map Prod.fst
          · cases hu : updateTeam tts stat.team_id v with
            | none => exact absurd ((updateTeam_none_iff tts stat.team_id v).1 hu) (fun h => h hk)
            | some tts2 =>
                obtain ⟨st, hmem, hst⟩ := hbad
                rcases List.mem_cons.1 hmem with rfl | hmem2
                · exact absurd hk hst
                · have hkeys := updateTeam_keys tts stat.team_id v tts2 hu
                  have hbad2 : ∃ st ∈ rest, st.team_id ∉ tts2.map Prod.fst :=
                    ⟨st, hmem2, by rw [hkeys]; exact hst⟩
                  obtain ⟨tid, htid, hres⟩ :=
                    ih tts2 (fun s hs => hparse s (List.mem_cons_of_mem stat hs)) hbad2
                  refine ⟨tid, by rw [hkeys] at htid; exact htid, ?_⟩
                  simp only [fillRankings, hv, hu, hres, Except.map]
          · refine ⟨stat.team_id, hk, ?_⟩
            have hu : updateTeam tts stat.team_id v = none :=
              (updateTeam_none_iff tts stat.team_id v).2 hk
            simp only [fillRankings, hv, hu]

/-- Destructuring a successful `leaders` aggregation into its fill and
sort-and-rank phases. -/
theorem leadersAgg_ok (s : Snapshot) (ind team : List (String × Int × Nat))
    (h : leadersAgg s = .ok (ind, team)) :
    ∃ r tts,
      fillRankings (s.statistics.map Prod.snd) (initTeamTotals s.indexUsersByTeam) =
        .ok (r, tts) ∧
      ind = rankifyFrom 1 (sortDescBy (fun p => p.2) r) ∧
      team = rankifyFrom 1 (sortDescBy (fun p => p.2) tts) := by
  unfold leadersAgg at h
  cases hf : fillRankings (s.statistics.map Prod.snd) (initTeamTotals s.indexUsersByTeam) with
  | error e => simp only [hf] at h; exact Except.noConfusion h
  | ok p =>
      obtain ⟨r, tts⟩ := p
      simp only [hf, Except.ok.injEq, Prod.mk.injEq] at h
      exact ⟨r, tts, rfl, h.1.symm, h.2.symm⟩

/-- `sortDescBy` output is non-increasing in the key. -/
theorem sortDescBy_pairwise (key : α → Int) (l : List α) :
    (sortDescBy key l).Pairwise (fun a b => key b ≤ key a) := by
  have h := insSort_pairwise (fun a b => decide (key b ≤ key a))
    (fun a b c hab hbc => by
      simp only [decide_eq_true_eq] at hab hbc ⊢
      exact le_trans hbc hab)
    (fun a b => by
      rcases le_total (key b) (key a) with h | h
      · exact Or.inl (by simpa using h)
      · exact Or.inr (by simpa using h)) l
  exact h.imp (fun hab => by simpa using hab)

/-- `sortDescBy` permutes its input. -/
theorem sortDescBy_perm (key : α → Int) (l : List α) :
    List.Perm (sortDescBy key l) l :=
  insSort_perm _ l

/-- With distinct keys, dictionary lookup finds a member's value. -/
theorem dictGet_of_mem (data : List (String × α))
    (hnodup : (data.map Prod.fst).Nodup) (k : String) (v : α)
    (h : (k, v) ∈ data) : dictGet k data = some v := by
  induction data with
  | nil => cases h
  | cons q rest ih =>
      obtain ⟨k2, v2⟩ := q
      rcases List.mem_cons.1 h with heq | hmem
      · cases heq
        simp [dictGet]
      · have hk : k ≠ k2 := by
          intro hkk
          subst hkk
          have hm : k ∈ rest.map Prod.fst := List.mem_map_of_mem Prod.fst hmem
          exact (List.nodup_cons.1 (by simpa using hnodup)).1 hm
      
        simp only [dictGet, hk, if_false]
        exact ih (List.nodup_cons.1 (by simpa using hnodup)).2 hmem

/-- Every date of the walk history appears in the summary with the total
computed by the per-date loop. -/
theorem summarizeHistory_mem (data : List (String × DateRec))
    (hnodup : (data.map Prod.fst).Nodup) (p : String × DateRec) (hp : p ∈ data) :
    (p.1, dateTotal p.2) ∈ summarizeHistory data := by
  have hkey : p.1 ∈ insSort strLe (data.map Prod.fst) :=
    ((insSort_perm strLe _).mem_iff).2 (List.mem_map_of_mem Prod.fst hp)
  have hget : dictGet p.1 data = some p.2 := by
    apply dictGet_of_mem data hnodup
    cases p
    exact hp
  unfold summarizeHistory
  have hm := List.mem_map_of_mem
    (fun d => (d, match dictGet d data with
                  | none => 0
                  | some rec => dateTotal rec)) hkey
  simpa [hget] using hm

/-- The snapshot of the spec's single-user scenario. -/
def snapC4 : Snapshot :=
  { users := [("U1", { first_name := "A", last_name := "B", login := "ab" })],
    teams := [("T1", { name := "Alpha" })],
    statistics := [("S1", { user_id := "U1", team_id := "T1", total := "42" })],
    indexUsersByTeam := [("T1", ["U1"])] }

/-- A snapshot whose two statistics reference the same user. -/
def snapDup : Snapshot :=
  { users := [("U1", { first_name := "A", last_name := "B", login := "ab" })],
    teams := [("T1", { name := "Alpha" })],
    statistics := [("S1", { user_id := "U1", team_id := "T1", total := "2" }),
                   ("S2", { user_id := "U1", team_id := "T1", total := "3" })],
    indexUsersByTeam := [("T1", ["U1"])] }

/-- A snapshot with two users on two teams and equal totals. -/
def snapTie : Snapshot :=
  { users := [("U1", { first_name := "A", last_name := "B", login := "ab" }),
              ("U2", { first_name := "C", last_name := "D", login := "cd" })],
    teams := [("T1", { name := "Alpha" }), ("T2", { name := "Beta" })],
    statistics := [("S1", { user_id := "U1", team_id := "T1", total := "5" }),
                   ("S2", { user_id := "U2", team_id := "T2", total := "5" })],
    indexUsersByTeam := [("T1", ["U1"]), ("T2", ["U2"])] }

/-- A snapshot whose statistic references a team id that is absent from
`indexUsersByTeam`. -/
def snapMissing : Snapshot :=
  { users := [("U1", { first_name := "A", last_name := "B", login := "ab" })],
    teams := [("T1", { name := "Alpha" })],
    statistics := [("S1", { user_id := "U1", team_id := "TX", total := "1" })],
    indexUsersByTeam := [("T1", ["U1"])] }

/-- C4: on the scenario snapshot with teams `{T1:"Alpha"}`, users
`{U1:{first_name:"A",last_name:"B",login:"ab"}}`, statistics
`{S1:{user_id:U1, team_id:T1, total:"42"}}` and `indexUsersByTeam
{T1:[U1]}`, the aggregation parses the string `"42"` to the integer `42`
and yields individual ranking `[(U1,42,rank 1)]` and team ranking
`[(T1,42,rank 1)]`. -/
theorem leaders_scenario_single :
    pyInt "42" = some 42 ∧
    leadersAgg snapC4 = .ok ([("U1", 42, 1)], [("T1", 42, 1)]) :=
  ⟨rfl, rfl⟩

/-- C6: `_url` appends the cache-busting `ajax.timestamp` parameter joined
with `?` when the path contains no `?`, and with `&` when it already does,
and then prepends the fixed base URL. -/
theorem url_delimiter (path : String) (ts : Nat) :
    (hasQueryMark path = false →
      url path ts = base_url ++ (path ++ "?" ++ "ajax.timestamp=" ++ toString ts)) ∧
    (hasQueryMark path = true →
      url path ts = base_url ++ (path ++ "&" ++ "ajax.timestamp=" ++ toString ts)) := by
  constructor <;> intro h <;> simp [url, h]

/-- Witness for C6 at a concrete query-free path and a concrete path that
already carries a query string. -/
theorem url_delimiter_witness :
    hasQueryMark "/users/logWalkHistory" = false ∧
    url "/users/logWalkHistory" 7 =
      base_url ++ ("/users/logWalkHistory" ++ "?" ++ "ajax.timestamp=" ++ toString 7) ∧
    hasQueryMark "/users/leaderboards?recalc" = true ∧
    url "/users/leaderboards?recalc" 7 =
      base_url ++ ("/users/leaderboards?recalc" ++ "&" ++ "ajax.timestamp=" ++ toString 7) :=
  ⟨by decide, (url_delimiter "/users/logWalkHistory" 7).1 (by decide),
   by decide, (url_delimiter "/users/leaderboards?recalc" 7).2 (by decide)⟩

/-- C7: `get_leaderboard(recalc=True, date_check="2024-01-02")` requests a
path whose query string contains `recalc` and `dateCheck=2024-01-02`, the
latter joined with `&` after `?recalc`; with `recalc=False` and no
`date_check`, neither parameter appears. -/
theorem get_leaderboard_query :
    get_leaderboard_path true (some "2024-01-02") =
      "/users/leaderboards?recalc&dateCheck=2024-01-02" ∧
    get_leaderboard_path false none = "/users/leaderboards" :=
  ⟨rfl, rfl⟩

/-- C8: `get_activity_list` issues its GET against `/users/getActivityList`
and yields the keys of `data.else_used` in the dictionary's own iteration
order — unsorted; the `activities` subcommand sorts only for display. -/
theorem activity_list_unsorted :
    get_activity_list_path = "/users/getActivityList" ∧
    (∀ (V : Type) (d : ActivityData V), activityKeys d = d.else_used.map Prod.fst) ∧
    (∀ (V : Type) (d : ActivityData V), activitiesOutput d = insSort strLe (activityKeys d)) :=
  ⟨rfl, fun _ _ => rfl, fun _ _ => rfl⟩

/-- C9: a successful aggregation emits exactly one individual entry per
statistic record, so a user referenced by several statistics appears once
per record. -/
theorem leaders_entry_per_stat (s : Snapshot) (ind team : List (String × Int × Nat))
    (h : leadersAgg s = .ok (ind, team)) :
    ind.length = s.statistics.length := by
  obtain ⟨r, tts, hf, hind, _⟩ := leadersAgg_ok s ind team h
  subst hind
  rw [rankifyFrom_length, (sortDescBy_perm _ r).length_eq,
    fillRankings_length _ _ _ _ hf, List.length_map]

/-- Witness for C9 on a snapshot whose two statistics reference the same
user: the individual ranking keeps both entries. -/
theorem leaders_entry_per_stat_witness :
    leadersAgg snapDup = .ok ([("U1", 3, 1), ("U1", 2, 2)], [("T1", 5, 1)]) ∧
    ([("U1", (3 : Int), (1 : Nat)), ("U1", 2, 2)] : List (String × Int × Nat)).length =
      snapDup.statistics.length :=
  ⟨rfl, leaders_entry_per_stat snapDup [("U1", 3, 1), ("U1", 2, 2)] [("T1", 5, 1)] rfl⟩

/-- C1: when every statistic's `team_id` occurs in `indexUsersByTeam`, a
produced aggregation conserves the total: the sum of the individual
ranking's totals equals the sum of the team ranking's accumulated totals. -/
theorem leaders_conservation (s : Snapshot) (ind team : List (String × Int × Nat))
    (hteams : ∀ st ∈ s.statistics.map Prod.snd,
      st.team_id ∈ s.indexUsersByTeam.map Prod.fst)
    (h : leadersAgg s = .ok (ind, team)) :
    sumRankedTotals ind = sumRankedTotals team := by
  obtain ⟨r, tts, hf, hind, hteam⟩ := leadersAgg_ok s ind team h
  have hsum := fillRankings_sum _ _ _ _ hf
  rw [initTeamTotals_sum] at hsum
  rw [hind, hteam, sumRankedTotals_rankifyFrom, sumRankedTotals_rankifyFrom,
    sumTotals_perm (sortDescBy_perm _ r), sumTotals_perm (sortDescBy_perm _ tts)]
  omega

/-- Witness for C1 on the two-team snapshot. -/
theorem leaders_conservation_witness :
    (∀ st ∈ snapTie.statistics.map Prod.snd,
      st.team_id ∈ snapTie.indexUsersByTeam.map Prod.fst) ∧
    leadersAgg snapTie = .ok ([("U1", 5, 1), ("U2", 5, 2)], [("T1", 5, 1), ("T2", 5, 2)]) ∧
    sumRankedTotals [("U1", 5, 1), ("U2", 5, 2)] =
      sumRankedTotals [("T1", 5, 1), ("T2", 5, 2)] :=
  ⟨by decide, rfl,
   leaders_conservation snapTie [("U1", 5, 1), ("U2", 5, 2)] [("T1", 5, 1), ("T2", 5, 2)]
     (by decide) rfl⟩

/-- C2: the individual ranking of a produced aggregation is non-increasing
in total, its ranks are `1..N` in sorted order, and its first entry has
rank 1 and the maximum total. -/
theorem leaders_individual_sorted (s : Snapshot) (ind team : List (String × Int × Nat))
    (h : leadersAgg s = .ok (ind, team)) :
    List.Pairwise (fun a b => b.2.1 ≤ a.2.1) ind ∧
    ind.map (fun e => e.2.2) = List.range' 1 ind.length ∧
    (∀ a, ind.head? = some a → a.2.2 = 1 ∧ ∀ e ∈ ind, e.2.1 ≤ a.2.1) := by
  obtain ⟨r, tts, hf, hind, hteam⟩ := leadersAgg_ok s ind team h
  have hpair : ind.Pairwise (fun a b => b.2.1 ≤ a.2.1) := by
    rw [hind]
    exact rankifyFrom_pairwise 1 _ (sortDescBy_pairwise _ r)
  have hranks : ind.map (fun e => e.2.2) = List.range' 1 ind.length := by
    rw [hind, rankifyFrom_length]
    exact rankifyFrom_ranks 1 _
  refine ⟨hpair, hranks, ?_⟩
  intro a ha
  rw [hind] at ha
  cases hsl : sortDescBy (fun p : String × Int => p.2) r with
  | nil => rw [hsl] at ha; cases ha
  | cons p l2 =>
      rw [hsl] at ha
      simp only [rankifyFrom, List.head?, Option.some.injEq] at ha
      subst ha
      refine ⟨rfl, ?_⟩
      intro e he
      rw [hind, hsl] at he
      have hp2 := rankifyFrom_pairwise 1 (p :: l2)
        (by rw [← hsl]; exact sortDescBy_pairwise _ r)
      rw [show rankifyFrom 1 (p :: l2) = (p.1, p.2, 1) :: rankifyFrom 2 l2 from rfl]
        at hp2 he
      rcases List.mem_cons.1 he with rfl | he2
      · exact le_refl _
      · exact (List.pairwise_cons.1 hp2).1 e he2

/-- Witness for C2 on the two-team snapshot with equal totals. -/
theorem leaders_individual_sorted_witness :
    leadersAgg snapTie = .ok ([("U1", 5, 1), ("U2", 5, 2)], [("T1", 5, 1), ("T2", 5, 2)]) ∧
    (List.Pairwise (fun a b => b.2.1 ≤ a.2.1)
        ([("U1", 5, 1), ("U2", 5, 2)] : List (String × Int × Nat)) ∧
      ([("U1", 5, 1), ("U2", 5, 2)] : List (String × Int × Nat)).map (fun e => e.2.2) =
        List.range' 1 ([("U1", 5, 1), ("U2", 5, 2)] : List (String × Int × Nat)).length ∧
      (∀ a, ([("U1", 5, 1), ("U2", 5, 2)] : List (String × Int × Nat)).head? = some a →
        a.2.2 = 1 ∧
          ∀ e ∈ ([("U1", 5, 1), ("U2", 5, 2)] : List (String × Int × Nat)), e.2.1 ≤ a.2.1)) :=
  ⟨rfl,
   leaders_individual_sorted snapTie [("U1", 5, 1), ("U2", 5, 2)]
     [("T1", 5, 1), ("T2", 5, 2)] rfl⟩

/-- C3: when every total parses but some statistic references a team id
absent from `indexUsersByTeam`, the aggregation fails with the
`ReferenceError` (`KeyError`) of such a team id instead of skipping the
record. -/
theorem leaders_missing_team (s : Snapshot)
    (hparse : ∀ st ∈ s.statistics.map Prod.snd, pyInt st.total ≠ none)
    (hbad : ∃ st ∈ s.statistics.map Prod.snd,
      st.team_id ∉ s.indexUsersByTeam.map Prod.fst) :
    ∃ tid, tid ∉ s.indexUsersByTeam.map Prod.fst ∧
      leadersAgg s = .error (.referenceError tid) := by
  have hkeys := initTeamTotals_keys s.indexUsersByTeam
  obtain ⟨tid, htid, hres⟩ := fillRankings_refError _ _ hparse (by rw [hkeys]; exact hbad)
  refine ⟨tid, by rw [hkeys] at htid; exact htid, ?_⟩
  unfold leadersAgg
  simp only [hres]

/-- Witness for C3 on the snapshot whose statistic names the unknown team
`TX`. -/
theorem leaders_missing_team_witness :
    (∀ st ∈ snapMissing.statistics.map Prod.snd, pyInt st.total ≠ none) ∧
    (∃ st ∈ snapMissing.statistics.map Prod.snd,
      st.team_id ∉ snapMissing.indexUsersByTeam.map Prod.fst) ∧
    ∃ tid, tid ∉ snapMissing.indexUsersByTeam.map Prod.fst ∧
      leadersAgg snapMissing = .error (.referenceError tid) :=
  ⟨by decide, by decide, leaders_missing_team snapMissing (by decide) (by decide)⟩

/-- C5: for a walk history with distinct date keys, the summary lists each
date with total 0 when the date's record has no `logs` key and with the
sum of the log entries' `steps` otherwise, and the summary is ordered by
date ascending in the lexicographic order on ISO date strings. -/
theorem history_summary (data : List (String × DateRec))
    (hnodup : (data.map Prod.fst).Nodup) :
    List.Pairwise (fun a b : String × Int => strLe a.1 b.1 = true)
      (summarizeHistory data) ∧
    ∀ p ∈ data,
      (p.2.logs = none → (p.1, (0 : Int)) ∈ summarizeHistory data) ∧
      (∀ logs, p.2.logs = some logs →
        (p.1, (logs.map (fun l => l.2.steps)).sum) ∈ summarizeHistory data) := by
  constructor
  · have hs := insSort_pairwise strLe
      (fun a b c => strLe_trans a b c) (fun a b => strLe_total a b)
      (data.map Prod.fst)
    unfold summarizeHistory
    exact List.Pairwise.map _ (fun a b hab => hab) hs
  · intro p hp
    constructor
    · intro hnone
      have hm := summarizeHistory_mem data hnodup p hp
      rwa [show dateTotal p.2 = 0 from by simp [dateTotal, hnone]] at hm
    · intro logs hsome
      have hm := summarizeHistory_mem data hnodup p hp
      rwa [show dateTotal p.2 = (logs.map (fun l => l.2.steps)).sum from by
        simp [dateTotal, hsome]] at hm

/-- A concrete two-day walk history: one day without a `logs` key, one day
with two log entries. -/
def histData : List (String × DateRec) :=
  [("2024-01-02", { logs := none }),
   ("2024-01-01", { logs := some [("L1", { id := "L1", steps := 3 }),
                                  ("L2", { id := "L2", steps := 4 })] })]

/-- Witness for C5 on the concrete two-day history. -/
theorem history_summary_witness :
    (histData.map Prod.fst).Nodup ∧
    (List.Pairwise (fun a b : String × Int => strLe a.1 b.1 = true)
        (summarizeHistory histData) ∧
      ∀ p ∈ histData,
        (p.2.logs = none → (p.1, (0 : Int)) ∈ summarizeHistory histData) ∧
        (∀ logs, p.2.logs = some logs →
          (p.1, (logs.map (fun l => l.2.steps)).sum) ∈ summarizeHistory histData)) :=
  ⟨by decide, history_summary histData (by decide)⟩

/-- Filtering a descending stable sort on one key value returns that key's
entries unchanged. -/
theorem sortDescBy_filter (key : α → Int) (k : Int) (l : List α) :
    (sortDescBy key l).filter (fun x => key x == k) =
      l.filter (fun x => key x == k) := by
  unfold sortDescBy
  apply insSort_filter
  intro a b ha hb
  simp only [beq_iff_eq] at ha hb
  simp [ha, hb]

/-- C10: both sorts of the `leaders` aggregation are stable — for every
total `k`, the individual entries of total `k` appear in the order the
statistics mapping yielded them, and the teams of accumulated total `k`
appear in the accumulator's order — and re-running the aggregation on the
same snapshot returns the same rankings. -/
theorem leaders_sort_stable (s : Snapshot)
    (ind team : List (String × Int × Nat)) (r tts : List (String × Int)) (k : Int)
    (hf : fillRankings (s.statistics.map Prod.snd) (initTeamTotals s.indexUsersByTeam) =
      .ok (r, tts))
    (h : leadersAgg s = .ok (ind, team)) :
    (ind.map dropRank).filter (fun p => p.2 == k) = r.filter (fun p => p.2 == k) ∧
    (team.map dropRank).filter (fun p => p.2 == k) = tts.filter (fun p => p.2 == k) ∧
    (∀ ind2 team2, leadersAgg s = .ok (ind2, team2) → ind2 = ind ∧ team2 = team) := by
  obtain ⟨r2, tts2, hf2, hind, hteam⟩ := leadersAgg_ok s ind team h
  rw [hf] at hf2
  injection hf2 with hp
  injection hp with hr ht
  subst hr
  subst ht
  refine ⟨?_, ?_, ?_⟩
  · rw [hind, rankifyFrom_map_dropRank]
    exact sortDescBy_filter (fun p => p.2) k r
  · rw [hteam, rankifyFrom_map_dropRank]
    exact sortDescBy_filter (fun p => p.2) k tts
  · intro ind2 team2 h2
    rw [h] at h2
    injection h2 with hp2
    injection hp2 with h1 h2b
    exact ⟨h1.symm, h2b.symm⟩

/-- Witness for C10 on the snapshot with two equal totals: the two
individual entries of total 5 keep the statistics order `U1, U2`. -/
theorem leaders_sort_stable_witness :
    fillRankings (snapTie.statistics.map Prod.snd) (initTeamTotals snapTie.indexUsersByTeam) =
      .ok ([("U1", 5), ("U2", 5)], [("T1", 5), ("T2", 5)]) ∧
    leadersAgg snapTie = .ok ([("U1", 5, 1), ("U2", 5, 2)], [("T1", 5, 1), ("T2", 5, 2)]) ∧
    (([("U1", (5 : Int), (1 : Nat)), ("U2", 5, 2)].map dropRank).filter
        (fun p => p.2 == (5 : Int)) =
      ([("U1", (5 : Int)), ("U2", 5)]).filter (fun p => p.2 == (5 : Int))) :=
  ⟨rfl, rfl,
   (leaders_sort_stable snapTie [("U1", 5, 1), ("U2", 5, 2)] [("T1", 5, 1), ("T2", 5, 2)]
     [("U1", 5), ("U2", 5)] [("T1", 5), ("T2", 5)] 5 rfl rfl).1⟩
